import Mathlib

/-!
Shallow embedding of the log-file REST API core
(`fastapi_log_api/fastapi_log_api.py`): line parsing, timestamp parsing in
the fixed format used throughout the program, deterministic id assignment
(version-5 UUID over the URL namespace), directory ingestion, filtering,
pagination and aggregate statistics.  Strings are modelled over their
character lists; machine words inside SHA-1 are natural numbers reduced
modulo 2^32.  Python str operations are modelled over the ASCII subset
(whitespace, digits, letter case), which covers every string the claims
exercise.
-/

namespace LogApi

/-! ### Python string primitives -/

/-- ASCII whitespace, the characters Python `str.strip` and the regex
class used by `strptime` treat as whitespace (restricted to ASCII). -/
def isSpace (c : Char) : Bool :=
  c = ' ' || c = '\t' || c = '\n' || c = '\x0d' || c = '\x0b' || c = '\x0c'

def isDigitCh (c : Char) : Bool :=
  '0' ≤ c && c ≤ '9'

def digitVal (c : Char) : Nat :=
  c.toNat - '0'.toNat

/-- `str.strip()` on the left, over a character list. -/
def lstripL (s : List Char) : List Char :=
  s.dropWhile isSpace

/-- `str.strip()`: remove leading and trailing whitespace. -/
def stripL (s : List Char) : List Char :=
  ((s.dropWhile isSpace).reverse.dropWhile isSpace).reverse

def strip (s : String) : String :=
  ⟨stripL s.data⟩

/-- `str.rstrip("\n")`: remove trailing newline characters only. -/
def rstripNlL (s : List Char) : List Char :=
  (s.reverse.dropWhile (fun c => c = '\n')).reverse

/-- Helper for `splitTabMax`: break a list at the first tab, returning
`none` when no tab occurs. -/
def breakTab : List Char → Option (List Char × List Char)
  | [] => none
  | c :: rest =>
    if c = '\t' then some ([], rest)
    else
      match breakTab rest with
      | none => none
      | some (pre, post) => some (c :: pre, post)

/-- `str.split("\t", maxsplit)` over a character list: split on the tab
character, performing at most `maxsplit` splits. -/
def splitTabMax : Nat → List Char → List (List Char)
  | 0, s => [s]
  | maxsplit + 1, s =>
    match breakTab s with
    | none => [s]
    | some (pre, post) => pre :: splitTabMax maxsplit post

/-- ASCII lower-casing, modelling `str.lower()` on the strings in play. -/
def lowerCh (c : Char) : Char :=
  if 'A' ≤ c && c ≤ 'Z' then Char.ofNat (c.toNat + 32) else c

def lower (s : String) : String :=
  ⟨s.data.map lowerCh⟩

/-! ### Timestamps

`datetime` values at second precision, with the comparison order and the
constructor-range validation of Python `datetime`, and `strptime` /
`strftime` for the single fixed format `"%Y-%m-%d %H:%M:%S"` the program
uses everywhere. -/

structure Timestamp where
  year : Nat
  month : Nat
  day : Nat
  hour : Nat
  minute : Nat
  second : Nat
deriving DecidableEq, Repr

/-- `datetime` comparison: lexicographic on
(year, month, day, hour, minute, second). -/
def Timestamp.le (a b : Timestamp) : Bool :=
  decide (a.year < b.year ∨ (a.year = b.year ∧
    (a.month < b.month ∨ (a.month = b.month ∧
      (a.day < b.day ∨ (a.day = b.day ∧
        (a.hour < b.hour ∨ (a.hour = b.hour ∧
          (a.minute < b.minute ∨ (a.minute = b.minute ∧
            a.second ≤ b.second))))))))))

def isLeapYear (y : Nat) : Bool :=
  y % 4 = 0 && (y % 100 ≠ 0 || y % 400 = 0)

def daysInMonth (y m : Nat) : Nat :=
  if m = 2 then (if isLeapYear y then 29 else 28)
  else if m = 4 || m = 6 || m = 9 || m = 11 then 30
  else 31

/-- The range validation the `datetime` constructor performs
(`MINYEAR = 1`, `MAXYEAR = 9999`). -/
def ctorValid (y mo d h mi s : Nat) : Bool :=
  1 ≤ y && y ≤ 9999 && 1 ≤ mo && mo ≤ 12 && 1 ≤ d && d ≤ daysInMonth y mo &&
  h ≤ 23 && mi ≤ 59 && s ≤ 59

/-- Read a field of one or two digits.  `strptime` compiles each numeric
directive of `"%Y-%m-%d %H:%M:%S"` (other than the four-digit year) to a
regular expression matching either two digits from `two` or a single digit
from `one`; since the character after the field is never a digit, the
greedy two-digit branch with a single-digit fallback is exact. -/
def readField (one : Nat → Bool) (two : Nat → Bool) :
    List Char → Option (Nat × List Char)
  | c1 :: c2 :: rest =>
    if isDigitCh c1 && isDigitCh c2 then
      let v := 10 * digitVal c1 + digitVal c2
      if two v then some (v, rest) else none
    else if isDigitCh c1 then
      if one (digitVal c1) then some (digitVal c1, c2 :: rest) else none
    else none
  | [c1] =>
    if isDigitCh c1 && one (digitVal c1) then some (digitVal c1, []) else none
  | [] => none

/-- Expect one literal character. -/
def readLit (ch : Char) : List Char → Option (List Char)
  | c :: rest => if c = ch then some rest else none
  | [] => none

/-- Expect one or more whitespace characters (the `\s+` the space in the
format string compiles to). -/
def readSpaces : List Char → Option (List Char)
  | c :: rest => if isSpace c then some (rest.dropWhile isSpace) else none
  | [] => none

/-- `datetime.strptime(s, "%Y-%m-%d %H:%M:%S")`, as an `Option`:
`%Y` is exactly four digits; month matches `1..12`, day `1..31`,
hour `0..23`, minute `0..59`, second `0..61`, each unpadded single digits
allowed; the full string must be consumed; finally the `datetime`
constructor validates calendar ranges (so second `60`/`61` and
out-of-range days are rejected). -/
def strptime (s : String) : Option Timestamp :=
  match s.data with
  | y1 :: y2 :: y3 :: y4 :: rest =>
    if isDigitCh y1 && isDigitCh y2 && isDigitCh y3 && isDigitCh y4 then
      let y := 1000 * digitVal y1 + 100 * digitVal y2 + 10 * digitVal y3 + digitVal y4
      match readLit '-' rest with
      | none => none
      | some r1 =>
      match readField (fun v => 1 ≤ v && v ≤ 9) (fun v => 1 ≤ v && v ≤ 12) r1 with
      | none => none
      | some (mo, r2) =>
      match readLit '-' r2 with
      | none => none
      | some r3 =>
      match readField (fun v => 1 ≤ v && v ≤ 9) (fun v => 1 ≤ v && v ≤ 31) r3 with
      | none => none
      | some (d, r4) =>
      match readSpaces r4 with
      | none => none
      | some r5 =>
      match readField (fun _ => true) (fun v => v ≤ 23) r5 with
      | none => none
      | some (h, r6) =>
      match readLit ':' r6 with
      | none => none
      | some r7 =>
      match readField (fun _ => true) (fun v => v ≤ 59) r7 with
      | none => none
      | some (mi, r8) =>
      match readLit ':' r8 with
      | none => none
      | some r9 =>
      match readField (fun _ => true) (fun v => v ≤ 61) r9 with
      | none => none
      | some (sec, r10) =>
      if r10 = [] && ctorValid y mo d h mi sec then
        some ⟨y, mo, d, h, mi, sec⟩
      else none
    else none
  | _ => none

def pad2 (n : Nat) : String :=
  if n < 10 then "0" ++ toString n else toString n

def pad4 (n : Nat) : String :=
  if n < 10 then "000" ++ toString n
  else if n < 100 then "00" ++ toString n
  else if n < 1000 then "0" ++ toString n
  else toString n

/-- `ts.strftime("%Y-%m-%d %H:%M:%S")`: reprint the timestamp zero-padded
at second precision.  (C `strftime` leaves `%Y` unpadded below year 1000
on some platforms; the model fixes the zero-padded form, which agrees with
the parser's four-digit years and with every input the claims exercise.) -/
def strftime (t : Timestamp) : String :=
  pad4 t.year ++ "-" ++ pad2 t.month ++ "-" ++ pad2 t.day ++ " " ++
    pad2 t.hour ++ ":" ++ pad2 t.minute ++ ":" ++ pad2 t.second

/-! ### SHA-1 and version-5 UUIDs

`_make_id` computes `uuid.uuid5(uuid.NAMESPACE_URL, name)`, the name-based
UUID built from the SHA-1 of the namespace bytes followed by the UTF-8
encoding of the name.  Bytes and 32-bit words are natural numbers, reduced
modulo 2^32 where the algorithm overflows. -/

def M32 : Nat := 4294967296

/-- Rotate a 32-bit word left by `n` (for `0 < n < 32`, `x < 2^32`). -/
def rotl (n x : Nat) : Nat :=
  (x * 2 ^ n + x / 2 ^ (32 - n)) % M32

/-- Big-endian bytes of a 32-bit word. -/
def beBytes4 (x : Nat) : List Nat :=
  [x / 16777216 % 256, x / 65536 % 256, x / 256 % 256, x % 256]

/-- Big-endian bytes of the 64-bit message length. -/
def beBytes8 (x : Nat) : List Nat :=
  [x / 72057594037927936 % 256, x / 281474976710656 % 256,
   x / 1099511627776 % 256, x / 4294967296 % 256,
   x / 16777216 % 256, x / 65536 % 256, x / 256 % 256, x % 256]

/-- SHA-1 padding: append `0x80`, zeros to 56 mod 64, then the bit length
as eight big-endian bytes. -/
def sha1pad (msg : List Nat) : List Nat :=
  msg ++ [128] ++ List.replicate ((119 - msg.length % 64) % 64) 0 ++
    beBytes8 (msg.length * 8)

/-- Group bytes into big-endian 32-bit words. -/
def toWords : List Nat → List Nat
  | b1 :: b2 :: b3 :: b4 :: rest =>
    (((b1 * 256 + b2) * 256 + b3) * 256 + b4) :: toWords rest
  | _ => []

/-- Extend the 16 chunk words to 80, working on the reversed word list:
`w[i] = rotl1 (w[i-3] xor w[i-8] xor w[i-14] xor w[i-16])`. -/
def extendRev : Nat → List Nat → List Nat
  | 0, ws => ws
  | k + 1, ws =>
    extendRev k
      (rotl 1 (ws.getD 2 0 ^^^ ws.getD 7 0 ^^^ ws.getD 13 0 ^^^ ws.getD 15 0) :: ws)

/-- One SHA-1 compression round. -/
def sha1round (i : Nat) (st : Nat × Nat × Nat × Nat × Nat) (w : Nat) :
    Nat × Nat × Nat × Nat × Nat :=
  let (a, b, c, d, e) := st
  let f :=
    if i < 20 then (b &&& c) ||| ((4294967295 ^^^ b) &&& d)
    else if i < 40 then b ^^^ c ^^^ d
    else if i < 60 then (b &&& c) ||| (b &&& d) ||| (c &&& d)
    else b ^^^ c ^^^ d
  let k :=
    if i < 20 then 1518500249
    else if i < 40 then 1859775393
    else if i < 60 then 2400959708
    else 3395469782
  let temp := (rotl 5 a + f + e + k + w) % M32
  (temp, a, rotl 30 b, c, d)

/-- Split a byte list into 64-byte chunks (structural recursion on a fuel
argument so that the kernel can evaluate it). -/
def chunks64F : Nat → List Nat → List (List Nat)
  | 0, _ => []
  | _, [] => []
  | fuel + 1, b :: rest =>
    ((b :: rest).take 64) :: chunks64F fuel ((b :: rest).drop 64)

def chunks64 (l : List Nat) : List (List Nat) :=
  chunks64F l.length l

/-- SHA-1 of a byte list, as the 20 digest bytes. -/
def sha1 (msg : List Nat) : List Nat :=
  let init : Nat × Nat × Nat × Nat × Nat :=
    (1732584193, 4023233417, 2562383102, 271733878, 3285377520)
  let final := (chunks64 (sha1pad msg)).foldl
    (fun h chunk =>
      let w := (extendRev 64 (toWords chunk).reverse).reverse
      let st := w.enum.foldl (fun st iw => sha1round iw.1 st iw.2) h
      ((h.1 + st.1) % M32, (h.2.1 + st.2.1) % M32, (h.2.2.1 + st.2.2.1) % M32,
       (h.2.2.2.1 + st.2.2.2.1) % M32, (h.2.2.2.2 + st.2.2.2.2) % M32))
    init
  beBytes4 final.1 ++ beBytes4 final.2.1 ++ beBytes4 final.2.2.1 ++
    beBytes4 final.2.2.2.1 ++ beBytes4 final.2.2.2.2

/-- UTF-8 encoding of one character. -/
def utf8Char (c : Char) : List Nat :=
  let n := c.toNat
  if n < 128 then [n]
  else if n < 2048 then [192 + n / 64, 128 + n % 64]
  else if n < 65536 then [224 + n / 4096, 128 + n / 64 % 64, 128 + n % 64]
  else [240 + n / 262144, 128 + n / 4096 % 64, 128 + n / 64 % 64, 128 + n % 64]

def utf8Bytes (s : String) : List Nat :=
  s.data.flatMap utf8Char

/-- The sixteen bytes of `uuid.NAMESPACE_URL`,
`6ba7b811-9dad-11d1-80b4-00c04fd430c8`. -/
def NAMESPACE_URL : List Nat :=
  [107, 167, 184, 17, 157, 173, 17, 209, 128, 180, 0, 192, 79, 212, 48, 200]

/-- `uuid5` bytes: first sixteen SHA-1 bytes of namespace ++ name, with the
version nibble forced to 5 and the variant bits to RFC 4122. -/
def uuid5bytes (ns : List Nat) (name : String) : List Nat :=
  let d := (sha1 (ns ++ utf8Bytes name)).take 16
  let d := d.set 6 ((d.getD 6 0 % 16) + 80)
  d.set 8 ((d.getD 8 0 % 64) + 128)

def hexDigit (n : Nat) : Char :=
  if n < 10 then Char.ofNat (48 + n) else Char.ofNat (87 + n)

def byteHex (b : Nat) : List Char :=
  [hexDigit (b / 16 % 16), hexDigit (b % 16)]

/-- Canonical lowercase 8-4-4-4-12 string form of sixteen UUID bytes. -/
def uuidStr (bytes : List Nat) : String :=
  let hx := fun (l : List Nat) => (l.flatMap byteHex)
  ⟨hx (bytes.take 4) ++ '-' :: hx ((bytes.drop 4).take 2) ++
    '-' :: hx ((bytes.drop 6).take 2) ++ '-' :: hx ((bytes.drop 8).take 2) ++
    '-' :: hx (bytes.drop 10)⟩

/-! ### Data model and ingestion pipeline -/

structure LogEntry where
  id : String
  timestamp : Timestamp
  level : String
  component : String
  message : String
  source_file : Option String
  line_number : Option Nat
deriving DecidableEq, Repr

inductive ParseError where
  | malformedLine
  | invalidTimestamp
deriving DecidableEq, Repr

/-- `_make_id(file_path, line_no, timestamp_str)`: the version-5 UUID over
the URL namespace of `abspath(file_path) + ":" + line_no + ":" +
timestamp_str`.  Directory paths in the model are taken to be absolute and
normalized already, so `os.path.abspath` is the identity. -/
def _make_id (file_path : String) (line_no : Nat) (timestamp_str : String) : String :=
  uuidStr (uuid5bytes NAMESPACE_URL
    (file_path ++ ":" ++ toString line_no ++ ":" ++ timestamp_str))

/-- `_parse_log_line(line)`: strip trailing newlines, split on tab with at
most three splits, require four parts, parse the stripped first part as a
timestamp, and return it with the remaining parts stripped.  The two
`ValueError` branches of the source are the two `ParseError` tags. -/
def _parse_log_line (line : String) :
    Except ParseError (Timestamp × String × String × String) :=
  match splitTabMax 3 (rstripNlL line.data) with
  | [ts_str, lvl, comp, msg] =>
    match strptime ⟨stripL ts_str⟩ with
    | none => .error .invalidTimestamp
    | some ts => .ok (ts, ⟨stripL lvl⟩, ⟨stripL comp⟩, ⟨stripL msg⟩)
  | _ => .error .malformedLine

/-- One directory entry as the loader can encounter it: a subdirectory, a
readable text file (its list of lines, trailing newlines already removed),
or a file whose open/read raises. -/
inductive FsEntry where
  | dir
  | file (lines : List String)
  | unreadable
deriving DecidableEq, Repr

/-- A directory listing: entry names with their kinds. -/
abbrev Directory := List (String × FsEntry)

inductive Warning where
  | dirMissing (directory : String)
  | malformed (lineNo : Nat) (path : String) (err : ParseError)
  | readFailed (path : String)
deriving DecidableEq, Repr

/-- The two module globals `_LOGS` and `_LOG_MAP` the loader accumulates
into. -/
structure LoadState where
  logs : List LogEntry
  map : List (String × LogEntry)
deriving DecidableEq, Repr

/-- Python dict assignment `m[k] = v` on an insertion-ordered
association list. -/
def setAssoc (m : List (String × LogEntry)) (k : String) (v : LogEntry) :
    List (String × LogEntry) :=
  match m with
  | [] => [(k, v)]
  | (k2, v2) :: rest => if k2 = k then (k, v) :: rest else (k2, v2) :: setAssoc rest k v

/-- The body of the line loop of `load_logs` for one line: skip blank
lines, log and skip parse failures, otherwise build the `LogEntry` and
append it to the accumulated state. -/
def processLine (file_path name : String) (i : Nat) (line : String)
    (st : LoadState × List Warning) : LoadState × List Warning :=
  if strip line = "" then st
  else
    match _parse_log_line line with
    | .error e => (st.1, st.2 ++ [.malformed i file_path e])
    | .ok (ts, lvl, comp, msg) =>
      let ts_str := strftime ts
      let entry_id := _make_id file_path i ts_str
      let entry : LogEntry := ⟨entry_id, ts, lvl, comp, msg, some name, some i⟩
      (⟨st.1.logs ++ [entry], setAssoc st.1.map entry_id entry⟩, st.2)

/-- The line loop (`enumerate(fh, start=1)` supplies `i`). -/
def processLines (file_path name : String) (i : Nat) (lines : List String)
    (st : LoadState × List Warning) : LoadState × List Warning :=
  match lines with
  | [] => st
  | l :: rest => processLines file_path name (i + 1) rest (processLine file_path name i l st)

/-- The body of the file loop of `load_logs` for one directory entry:
skip subdirectories, log and skip unreadable files, otherwise run the line
loop over the file's lines. -/
def processEntry (directory : String) (ent : String × FsEntry)
    (st : LoadState × List Warning) : LoadState × List Warning :=
  let file_path := directory ++ "/" ++ ent.1
  match ent.2 with
  | .dir => st
  | .unreadable => (st.1, st.2 ++ [.readFailed file_path])
  | .file lines => processLines file_path ent.1 1 lines st

/-- Does the entry name begin with a dot?  `glob.glob(directory + "/*")`
does not match such names. -/
def startsDot (s : String) : Bool :=
  match s.data with
  | [] => false
  | c :: _ => c = '.'

/-- The name order `sorted` uses: lexicographic by code point (paths
share the directory prefix, so path order is name order). -/
def nameLE (a b : String × FsEntry) : Prop :=
  a.1 ≤ b.1

instance : DecidableRel nameLE :=
  fun a b => inferInstanceAs (Decidable (a.1 ≤ b.1))

instance : IsTotal (String × FsEntry) nameLE :=
  ⟨fun a b => le_total a.1 b.1⟩

instance : IsTrans (String × FsEntry) nameLE :=
  ⟨fun _ _ _ h1 h2 => le_trans h1 h2⟩

/-- `sorted(glob.glob(os.path.join(directory, "*")))`: the entries whose
names do not begin with a dot, sorted stably by name. -/
def globSorted (entries : Directory) : Directory :=
  (entries.filter (fun ent => !startsDot ent.1)).insertionSort nameLE

/-- The record comparison `load_logs` sorts by: `key=lambda x: x.timestamp`. -/
def entryLE (a b : LogEntry) : Bool :=
  Timestamp.le a.timestamp b.timestamp

/-- The state accumulated by the two nested loops of `load_logs`, before
the final sort. -/
def rawState (directory : String) (entries : Directory) :
    LoadState × List Warning :=
  (globSorted entries).foldl (fun acc ent => processEntry directory ent acc) (⟨[], []⟩, [])

/-- `load_logs(directory)`: `None` is a missing directory (the
`os.path.exists` guard); otherwise run both loops over the listing and
stably sort the records by timestamp.  Returns the final values of
`_LOGS`/`_LOG_MAP` and the warnings logged. -/
def load_logs (directory : String) (fs : Option Directory) :
    LoadState × List Warning :=
  match fs with
  | none => (⟨[], []⟩, [.dirMissing directory])
  | some entries =>
    let (st, ws) := rawState directory entries
    (⟨st.logs.mergeSort entryLE, st.map⟩, ws)

/-- The records in discovery order (file order, then line order), before
the final sort. -/
def discovered (directory : String) (fs : Option Directory) : List LogEntry :=
  match fs with
  | none => []
  | some entries => (rawState directory entries).1.logs

/-- The successive values of the module global `_LOGS` observable while
`load_logs` runs: the loop in the source rebinds `_LOGS` to a fresh empty
list, appends one entry at a time, and finally sorts the list in place, so
a concurrent reader of the global can encounter the empty list, any
discovery-order prefix, or the sorted result. -/
def reloadTrace (directory : String) (fs : Option Directory) :
    List (List LogEntry) :=
  match fs with
  | none => [[]]
  | some entries =>
    let raw := (rawState directory entries).1.logs
    ((List.range (raw.length + 1)).map (fun k => raw.take k)) ++
      [raw.mergeSort entryLE]

/-! ### Query engine -/

structure HTTPError where
  status : Nat
  detail : String
deriving DecidableEq, Repr

structure LogsResponse where
  total : Nat
  limit : Nat
  offset : Nat
  items : List LogEntry
deriving DecidableEq, Repr

structure StatsResponse where
  total_entries : Nat
  by_level : List (String × Nat)
  by_component : List (String × Nat)
deriving DecidableEq, Repr

/-- Python truthiness of an `Optional[str]`: `None` and the empty string
are falsy. -/
def truthy (o : Option String) : Bool :=
  match o with
  | none => false
  | some s => s ≠ ""

def startDetail : String := "start_time must be in format %Y-%m-%d %H:%M:%S"

def endDetail : String := "end_time must be in format %Y-%m-%d %H:%M:%S"

/-- `_apply_filters(items, level, component, start_time, end_time)`:
filter sequentially by level, component, start time and end time; the
guards are Python `if level:` — so truthiness — and a time value that
fails `strptime` raises `HTTPException(400)`. -/
def _apply_filters (items : List LogEntry)
    (level component start_time end_time : Option String) :
    Except HTTPError (List LogEntry) :=
  let res1 :=
    if truthy level then
      items.filter (fun e => lower e.level = lower (level.getD ""))
    else items
  let res2 :=
    if truthy component then
      res1.filter (fun e => lower e.component = lower (component.getD ""))
    else res1
  let step3 : Except HTTPError (List LogEntry) :=
    if truthy start_time then
      match strptime (start_time.getD "") with
      | none => .error ⟨400, startDetail⟩
      | some st => .ok (res2.filter (fun e => Timestamp.le st e.timestamp))
    else .ok res2
  match step3 with
  | .error err => .error err
  | .ok res3 =>
    if truthy end_time then
      match strptime (end_time.getD "") with
      | none => .error ⟨400, endDetail⟩
      | some et => .ok (res3.filter (fun e => Timestamp.le e.timestamp et))
    else .ok res3

/-- `get_logs`: apply the filters to the current records, report the
filtered total, and slice `filtered[offset : offset + limit]`. -/
def get_logs (logs : List LogEntry)
    (level component start_time end_time : Option String)
    (limit offset : Nat) : Except HTTPError LogsResponse :=
  match _apply_filters logs level component start_time end_time with
  | .error err => .error err
  | .ok filtered =>
    .ok ⟨filtered.length, limit, offset, (filtered.drop offset).take limit⟩

/-- Python `d[k] = d.get(k, 0) + 1` on an insertion-ordered association
list of counts. -/
def bumpCount (t : List (String × Nat)) (k : String) : List (String × Nat) :=
  match t with
  | [] => [(k, 1)]
  | (k2, v) :: rest =>
    if k2 = k then (k2, v + 1) :: rest else (k2, v) :: bumpCount rest k

/-- `get_stats`: the record count of the full snapshot and the two
frequency tables grouped by the as-stored level and component strings. -/
def get_stats (logs : List LogEntry) : StatsResponse :=
  ⟨logs.length,
   logs.foldl (fun t e => bumpCount t e.level) [],
   logs.foldl (fun t e => bumpCount t e.component) []⟩

/-- Lookup in an association list of counts. -/
def lookupCount (t : List (String × Nat)) (k : String) : Option Nat :=
  match t with
  | [] => none
  | (k2, v) :: rest => if k2 = k then some v else lookupCount rest k

/-! ### Reference definitions taken from the specification's words

Used only to compare against the code-derived definitions above. -/

/-- Modelled from the spec: a record satisfies the logical AND of all
supplied filters; level and component are matched by case-insensitive
exact string equality; an absent filter imposes no constraint; time
bounds, already parsed, are inclusive on both ends. -/
def specMatches (level component : Option String) (st et : Option Timestamp)
    (e : LogEntry) : Bool :=
  (!truthy level || lower e.level = lower (level.getD "")) &&
  (!truthy component || lower e.component = lower (component.getD "")) &&
  (match st with
   | none => true
   | some t => Timestamp.le t e.timestamp) &&
  (match et with
   | none => true
   | some t => Timestamp.le e.timestamp t)

/-- Modelled from the spec: the filtered sequence is the snapshot's
records, in their stored order, that satisfy all supplied filters. -/
def specFiltered (logs : List LogEntry) (level component : Option String)
    (st et : Option Timestamp) : List LogEntry :=
  logs.filter (specMatches level component st et)

/-- Modelled from the spec: `total` is the filtered length and `items` is
the slice of the filtered sequence from `offset` to `offset + limit`. -/
def spec_get_logs (logs : List LogEntry) (level component : Option String)
    (st et : Option Timestamp) (limit offset : Nat) : LogsResponse :=
  let f := specFiltered logs level component st et
  ⟨f.length, limit, offset, (f.drop offset).take limit⟩

/-- The time-filter argument a truthy parameter contributes after parsing. -/
def parsedOpt (o : Option String) : Option Timestamp :=
  if truthy o then strptime (o.getD "") else none

/-! ### Per-line and per-file contributions

The records and warnings one line, and one directory entry, contribute on
their own; the decomposition lemmas below show the accumulating loops of
`load_logs` equal the concatenation of these independent contributions, so
no failure affects anything beyond its own line or file. -/

/-- The records a single line contributes: none when blank or malformed,
one entry otherwise. -/
def lineRecords (file_path name : String) (i : Nat) (line : String) :
    List LogEntry :=
  if strip line = "" then []
  else
    match _parse_log_line line with
    | .error _ => []
    | .ok (ts, lvl, comp, msg) =>
      [⟨_make_id file_path i (strftime ts), ts, lvl, comp, msg, some name, some i⟩]

/-- The warnings a single line contributes: none when blank or parsed,
one malformed-line warning otherwise. -/
def lineWarns (file_path : String) (i : Nat) (line : String) : List Warning :=
  if strip line = "" then []
  else
    match _parse_log_line line with
    | .error e => [.malformed i file_path e]
    | .ok _ => []

def linesRecords (file_path name : String) (i : Nat) :
    List String → List LogEntry
  | [] => []
  | l :: rest =>
    lineRecords file_path name i l ++ linesRecords file_path name (i + 1) rest

def linesWarns (file_path : String) (i : Nat) : List String → List Warning
  | [] => []
  | l :: rest => lineWarns file_path i l ++ linesWarns file_path (i + 1) rest

/-- The records a single directory entry contributes. -/
def fileRecords (directory : String) (ent : String × FsEntry) : List LogEntry :=
  match ent.2 with
  | .dir => []
  | .unreadable => []
  | .file lines => linesRecords (directory ++ "/" ++ ent.1) ent.1 1 lines

/-- The warnings a single directory entry contributes. -/
def fileWarns (directory : String) (ent : String × FsEntry) : List Warning :=
  match ent.2 with
  | .dir => []
  | .unreadable => [.readFailed (directory ++ "/" ++ ent.1)]
  | .file lines => linesWarns (directory ++ "/" ++ ent.1) 1 lines

/-! ### The id of every loaded record -/

/-- A record's id is the deterministic `_make_id` of the joined source
path, the line number and the reprinted timestamp. -/
def idOK (directory : String) (e : LogEntry) : Prop :=
  ∃ name i, e.source_file = some name ∧ e.line_number = some i ∧
    e.id = _make_id (directory ++ "/" ++ name) i (strftime e.timestamp)

/-- Sample records for concrete witnesses. -/
def sampleError : LogEntry :=
  ⟨"id-a", ⟨2024, 1, 1, 10, 0, 0⟩, "ERROR", "Auth", "login failed",
    some "app.log", some 1⟩

def sampleInfo : LogEntry :=
  ⟨"id-b", ⟨2024, 1, 1, 9, 0, 0⟩, "INFO", "Db", "ok", some "app.log", some 2⟩

theorem Timestamp.le_refl (a : Timestamp) : Timestamp.le a a = true := by
  simp [Timestamp.le]

theorem Timestamp.le_trans (a b c : Timestamp) (hab : Timestamp.le a b)
    (hbc : Timestamp.le b c) : Timestamp.le a c = true := by
  simp only [Timestamp.le, decide_eq_true_eq] at hab hbc ⊢
  omega

theorem Timestamp.le_total (a b : Timestamp) :
    (Timestamp.le a b || Timestamp.le b a) = true := by
  simp only [Timestamp.le, Bool.or_eq_true, decide_eq_true_eq]
  omega

theorem processLine_logs (file_path name : String) (i : Nat) (line : String)
    (st : LoadState × List Warning) :
    (processLine file_path name i line st).1.logs =
      st.1.logs ++ lineRecords file_path name i line ∧
    (processLine file_path name i line st).2 =
      st.2 ++ lineWarns file_path i line := by
  unfold processLine lineRecords lineWarns
  by_cases hb : strip line = ""
  · simp [hb]
  · simp only [hb, if_false]
    match h : _parse_log_line line with
    | .error e => simp [h]
    | .ok (ts, lvl, comp, msg) => simp [h]

theorem processLines_logs (file_path name : String) (lines : List String) :
    ∀ (i : Nat) (st : LoadState × List Warning),
    (processLines file_path name i lines st).1.logs =
      st.1.logs ++ linesRecords file_path name i lines ∧
    (processLines file_path name i lines st).2 =
      st.2 ++ linesWarns file_path i lines := by
  induction lines with
  | nil => intro i st; simp [processLines, linesRecords, linesWarns]
  | cons l rest ih =>
    intro i st
    have h1 := processLine_logs file_path name i l st
    have h2 := ih (i + 1) (processLine file_path name i l st)
    simp only [processLines, linesRecords, linesWarns]
    rw [h2.1, h2.2, h1.1, h1.2, List.append_assoc, List.append_assoc]
    exact ⟨rfl, rfl⟩

theorem processEntry_logs (directory : String) (ent : String × FsEntry)
    (st : LoadState × List Warning) :
    (processEntry directory ent st).1.logs =
      st.1.logs ++ fileRecords directory ent ∧
    (processEntry directory ent st).2 =
      st.2 ++ fileWarns directory ent := by
  unfold processEntry fileRecords fileWarns
  match ent with
  | (name, .dir) => simp
  | (name, .unreadable) => simp
  | (name, .file lines) => exact processLines_logs _ _ lines 1 st

theorem foldl_processEntry_logs (directory : String) (files : Directory) :
    ∀ (st : LoadState × List Warning),
    (files.foldl (fun acc ent => processEntry directory ent acc) st).1.logs =
      st.1.logs ++ files.flatMap (fileRecords directory) ∧
    (files.foldl (fun acc ent => processEntry directory ent acc) st).2 =
      st.2 ++ files.flatMap (fileWarns directory) := by
  induction files with
  | nil => intro st; simp
  | cons ent rest ih =>
    intro st
    have h1 := processEntry_logs directory ent st
    have h2 := ih (processEntry directory ent st)
    simp only [List.foldl_cons, List.flatMap_cons]
    rw [h2.1, h2.2, h1.1, h1.2, List.append_assoc, List.append_assoc]
    exact ⟨rfl, rfl⟩

/-- The loops of `load_logs` equal the concatenation of the per-file
contributions over the sorted, dot-filtered listing. -/
theorem rawState_eq (directory : String) (entries : Directory) :
    (rawState directory entries).1.logs =
      (globSorted entries).flatMap (fileRecords directory) ∧
    (rawState directory entries).2 =
      (globSorted entries).flatMap (fileWarns directory) := by
  have h := foldl_processEntry_logs directory (globSorted entries) (⟨[], []⟩, [])
  simpa [rawState] using h

theorem load_logs_some_logs (directory : String) (entries : Directory) :
    (load_logs directory (some entries)).1.logs =
      ((rawState directory entries).1.logs).mergeSort entryLE := rfl

theorem load_logs_records (directory : String) (fs : Option Directory) :
    (load_logs directory fs).1.logs =
      (discovered directory fs).mergeSort entryLE := by
  cases fs with
  | none => simp [load_logs, discovered, List.mergeSort]
  | some entries => rfl

/-! ### Order lemmas for the final sort -/

theorem entryLE_trans (a b c : LogEntry) (hab : entryLE a b) (hbc : entryLE b c) :
    entryLE a c = true :=
  Timestamp.le_trans _ _ _ hab hbc

theorem entryLE_total (a b : LogEntry) : (entryLE a b || entryLE b a) = true :=
  Timestamp.le_total _ _

theorem entryLE_of_eq {a b : LogEntry} {t : Timestamp} (ha : a.timestamp = t)
    (hb : b.timestamp = t) : entryLE a b = true := by
  unfold entryLE
  rw [ha, hb]
  exact Timestamp.le_refl t

/-- Stability of the final sort, as the claims state it: restricted to any
fixed timestamp, the sorted record list equals the discovery-order list. -/
theorem mergeSort_filter_timestamp (l : List LogEntry) (t : Timestamp) :
    (l.mergeSort entryLE).filter (fun e => decide (e.timestamp = t)) =
      l.filter (fun e => decide (e.timestamp = t)) := by
  have hpw : (l.filter (fun e => decide (e.timestamp = t))).Pairwise
      (fun a b => entryLE a b = true) := by
    apply List.pairwise_of_forall_mem_list
    intro a ha b hb
    have ha2 := (List.mem_filter.mp ha).2
    have hb2 := (List.mem_filter.mp hb).2
    exact entryLE_of_eq (of_decide_eq_true ha2) (of_decide_eq_true hb2)
  have hsub : List.Sublist (l.filter (fun e => decide (e.timestamp = t)))
      (l.mergeSort entryLE) :=
    List.sublist_mergeSort entryLE_trans entryLE_total hpw (List.filter_sublist l)
  have hsub2 : List.Sublist
      ((l.filter (fun e => decide (e.timestamp = t))).filter
        (fun e => decide (e.timestamp = t)))
      ((l.mergeSort entryLE).filter (fun e => decide (e.timestamp = t))) :=
    hsub.filter _
  rw [List.filter_filter] at hsub2
  have hself : l.filter (fun e => decide (e.timestamp = t) &&
      decide (e.timestamp = t)) = l.filter (fun e => decide (e.timestamp = t)) := by
    apply List.filter_congr
    intro x _
    exact Bool.and_self _
  rw [hself] at hsub2
  have hperm : List.Perm
      ((l.mergeSort entryLE).filter (fun e => decide (e.timestamp = t)))
      (l.filter (fun e => decide (e.timestamp = t))) :=
    (List.mergeSort_perm l entryLE).filter _
  exact (hsub2.eq_of_length hperm.length_eq.symm).symm

theorem lineRecords_idOK (directory name : String) (i : Nat) (line : String)
    (e : LogEntry) (he : e ∈ lineRecords (directory ++ "/" ++ name) name i line) :
    idOK directory e := by
  unfold lineRecords at he
  by_cases hb : strip line = ""
  · simp [hb] at he
  · simp only [hb, if_false] at he
    match h : _parse_log_line line with
    | .error err => rw [h] at he; simp at he
    | .ok (ts, lvl, comp, msg) =>
      rw [h] at he
      simp only [List.mem_singleton] at he
      subst he
      exact ⟨name, i, rfl, rfl, rfl⟩

theorem linesRecords_idOK (directory name : String) (lines : List String) :
    ∀ (i : Nat) (e : LogEntry),
    e ∈ linesRecords (directory ++ "/" ++ name) name i lines → idOK directory e := by
  induction lines with
  | nil => intro i e he; simp [linesRecords] at he
  | cons l rest ih =>
    intro i e he
    simp only [linesRecords, List.mem_append] at he
    cases he with
    | inl h => exact lineRecords_idOK directory name i l e h
    | inr h => exact ih (i + 1) e h

theorem fileRecords_idOK (directory : String) (ent : String × FsEntry)
    (e : LogEntry) (he : e ∈ fileRecords directory ent) : idOK directory e := by
  match ent with
  | (name, .dir) => simp [fileRecords] at he
  | (name, .unreadable) => simp [fileRecords] at he
  | (name, .file lines) => exact linesRecords_idOK directory name lines 1 e he

theorem load_logs_idOK (directory : String) (fs : Option Directory)
    (e : LogEntry) (he : e ∈ (load_logs directory fs).1.logs) :
    idOK directory e := by
  rw [load_logs_records] at he
  rw [List.mem_mergeSort] at he
  cases fs with
  | none => simp [discovered] at he
  | some entries =>
    rw [show discovered directory (some entries) = (rawState directory entries).1.logs
      from rfl, (rawState_eq directory entries).1] at he
    rw [List.mem_flatMap] at he
    obtain ⟨ent, _, hent⟩ := he
    exact fileRecords_idOK directory ent e hent

/-! ### Counting lemmas for the statistics tables -/

theorem lookup_bumpCount (t : List (String × Nat)) (k s : String) :
    lookupCount (bumpCount t k) s =
      if k = s then some ((lookupCount t s).getD 0 + 1) else lookupCount t s := by
  induction t with
  | nil =>
    by_cases h : k = s <;> simp [bumpCount, lookupCount, h]
  | cons hd rest ih =>
    obtain ⟨k2, v⟩ := hd
    by_cases h1 : k2 = k
    · subst h1
      by_cases h2 : k2 = s
      · subst h2; simp [bumpCount, lookupCount]
      · simp [bumpCount, lookupCount, h2]
    · by_cases h2 : k2 = s
      · subst h2
        have hks : ¬ k = k2 := fun h => h1 h.symm
        simp [bumpCount, lookupCount, h1, hks]
      · simp [bumpCount, lookupCount, h1, h2, ih]

theorem lookup_foldl_bump (f : LogEntry → String) (logs : List LogEntry) :
    ∀ (t : List (String × Nat)) (s : String),
    lookupCount (logs.foldl (fun t e => bumpCount t (f e)) t) s =
      (if logs.countP (fun e => decide (f e = s)) = 0 then lookupCount t s
       else some ((lookupCount t s).getD 0 +
         logs.countP (fun e => decide (f e = s)))) := by
  induction logs with
  | nil => intro t s; simp
  | cons e rest ih =>
    intro t s
    rw [List.foldl_cons, ih (bumpCount t (f e)) s, List.countP_cons]
    by_cases hfe : f e = s
    · rw [lookup_bumpCount]
      simp only [hfe, if_pos rfl, decide_eq_true_eq]
      by_cases hc : rest.countP (fun x => decide (f x = s)) = 0
      all_goals simp [hc]
      all_goals omega
    · rw [lookup_bumpCount]
      have : (decide (f e = s)) = false := by simp [hfe]
      simp [hfe, this]

/-! ### Characterization of the filter pipeline -/

theorem applyOpt_eq (b : Bool) (p : LogEntry → Bool) (l : List LogEntry) :
    (if b then l.filter p else l) = l.filter (fun e => !b || p e) := by
  cases b <;> simp

theorem apply_filters_eq (logs : List LogEntry)
    (level component st et : Option String) :
    _apply_filters logs level component st et =
      (if truthy st = true ∧ strptime (st.getD "") = none then
        .error ⟨400, startDetail⟩
      else if truthy et = true ∧ strptime (et.getD "") = none then
        .error ⟨400, endDetail⟩
      else
        .ok (specFiltered logs level component (parsedOpt st) (parsedOpt et))) := by
  unfold _apply_filters
  simp only [applyOpt_eq]
  simp only [List.filter_filter]
  cases hst : truthy st with
  | true =>
    cases hsp : strptime (st.getD "") with
    | none => simp [hst, hsp]
    | some T =>
      cases het : truthy et with
      | true =>
        cases hep : strptime (et.getD "") with
        | none => simp [hst, hsp, het, hep]
        | some E =>
          simp [hst, hsp, het, hep, parsedOpt, specFiltered]
          apply List.filter_congr
          intro x hx
          cases h1 : (!truthy level || decide (lower x.level = lower (level.getD ""))) <;>
            cases h2 : (!truthy component || decide (lower x.component = lower (component.getD ""))) <;>
            cases h3 : Timestamp.le T x.timestamp <;>
            cases h4 : Timestamp.le x.timestamp E <;>
            simp [specMatches, h1, h2, h3, h4]
      | false =>
        simp [hst, hsp, het, parsedOpt, specFiltered]
        apply List.filter_congr
        intro x hx
        cases h1 : (!truthy level || decide (lower x.level = lower (level.getD ""))) <;>
          cases h2 : (!truthy component || decide (lower x.component = lower (component.getD ""))) <;>
          cases h3 : Timestamp.le T x.timestamp <;>
          simp [specMatches, h1, h2, h3]
  | false =>
    cases het : truthy et with
    | true =>
      cases hep : strptime (et.getD "") with
      | none => simp [hst, het, hep]
      | some E =>
        simp [hst, het, hep, parsedOpt, specFiltered]
        apply List.filter_congr
        intro x hx
        cases h1 : (!truthy level || decide (lower x.level = lower (level.getD ""))) <;>
          cases h2 : (!truthy component || decide (lower x.component = lower (component.getD ""))) <;>
          cases h4 : Timestamp.le x.timestamp E <;>
          simp [specMatches, h1, h2, h4]
    | false =>
      simp [hst, het, parsedOpt, specFiltered]
      apply List.filter_congr
      intro x hx
      cases h1 : (!truthy level || decide (lower x.level = lower (level.getD ""))) <;>
        cases h2 : (!truthy component || decide (lower x.component = lower (component.getD ""))) <;>
        simp [specMatches, h1, h2]

/-! ### Remaining small lemmas -/

theorem splitTabMax_length_le : ∀ (n : Nat) (s : List Char),
    (splitTabMax n s).length ≤ n + 1 := by
  intro n
  induction n with
  | zero => intro s; simp [splitTabMax]
  | succ m ih =>
    intro s
    unfold splitTabMax
    match h : breakTab s with
    | none => simp
    | some (pre, post) =>
      have := ih post
      simp only [List.length_cons]
      omega

theorem lower_empty_iff (s : String) : lower s = "" ↔ s = "" := by
  constructor
  · intro h
    have h2 : s.data.map lowerCh = ([] : List Char) := congrArg String.data h
    exact String.ext (List.map_eq_nil_iff.mp h2)
  · intro h; rw [h]; rfl

/-! ### The claims -/

/-- C8: `get_stats` ignores all filters (the operation takes no filter
parameters at all in the source) and returns `total_entries` equal to the
number of records in the snapshot together with two frequency tables
grouped by the exact, case-sensitive, as-stored level and component
strings: a string is present in a table exactly when its count of
records is non-zero, mapped to that count; the empty snapshot yields
`total_entries = 0` and two empty tables. -/
theorem stats_characterization : ∀ logs : List LogEntry,
    (get_stats logs).total_entries = logs.length ∧
    (∀ s, lookupCount (get_stats logs).by_level s =
      (if logs.countP (fun e => decide (e.level = s)) = 0 then none
       else some (logs.countP (fun e => decide (e.level = s))))) ∧
    (∀ s, lookupCount (get_stats logs).by_component s =
      (if logs.countP (fun e => decide (e.component = s)) = 0 then none
       else some (logs.countP (fun e => decide (e.component = s))))) ∧
    get_stats [] = ⟨0, [], []⟩ := by
  intro logs
  refine ⟨rfl, ?_, ?_, rfl⟩
  · intro s
    have h := lookup_foldl_bump (fun e => e.level) logs [] s
    simpa [get_stats, lookupCount] using h
  · intro s
    have h := lookup_foldl_bump (fun e => e.component) logs [] s
    simpa [get_stats, lookupCount] using h

/-- C3: for every directory content, the loaded record sequence is
non-decreasing by timestamp, and the sort is stable: restricted to any
single timestamp, the loaded sequence equals the discovery-order sequence
(lexicographic file order, then line order within each file). -/
theorem load_sorted_stable : ∀ (directory : String) (fs : Option Directory),
    ((load_logs directory fs).1.logs).Pairwise (fun a b => entryLE a b = true) ∧
    ∀ t : Timestamp,
      ((load_logs directory fs).1.logs).filter (fun e => decide (e.timestamp = t)) =
        (discovered directory fs).filter (fun e => decide (e.timestamp = t)) := by
  intro directory fs
  constructor
  · rw [load_logs_records]
    exact List.sorted_mergeSort entryLE_trans entryLE_total _
  · intro t
    rw [load_logs_records]
    exact mergeSort_filter_timestamp _ t

/-- C4: ingestion is deterministic — the embedding of `load_logs` is a
pure function of the directory content, so two runs over the same content
are identical — and every loaded record's id is `_make_id` applied to the
record's absolute source path, line number and timestamp reprinted at
second precision, where `_make_id` is the version-5 UUID over the URL
namespace of that tuple and of nothing else (no clock, randomness or
process identity occurs in the model). -/
theorem load_deterministic_ids : ∀ (directory : String) (fs : Option Directory),
    load_logs directory fs = load_logs directory fs ∧
    ∀ e ∈ (load_logs directory fs).1.logs, idOK directory e :=
  fun directory fs => ⟨rfl, fun e he => load_logs_idOK directory fs e he⟩

set_option maxRecDepth 40000 in
/-- Witness for C4 at a one-file, one-line directory. -/
theorem load_deterministic_ids_witness :
    idOK "/var/logs"
      ⟨"dc6e3eef-735f-58fc-ba7e-3a4ad733356d", ⟨2024, 1, 1, 10, 0, 0⟩,
        "ERROR", "Auth", "login failed", some "app.log", some 1⟩ :=
  (load_deterministic_ids "/var/logs"
      (some [("app.log", FsEntry.file ["2024-01-01 10:00:00\tERROR\tAuth\tlogin failed"])])).2
    _ (by rw [load_logs_records, List.mem_mergeSort]; decide)

set_option maxRecDepth 40000 in
/-- C9: the source rebinds the module global `_LOGS` to a fresh empty list
and then fills it by repeated in-place appends before sorting it in place,
so a reader of the global during a reload can observe a state — here the
empty list — that is neither the complete old snapshot nor the complete
new one (loading this content yields one record, so old and new snapshots
are both non-empty). -/
theorem reload_partial_state_observable :
    [] ∈ reloadTrace "/var/logs"
      (some [("app.log", FsEntry.file ["2024-01-01 10:00:00\tERROR\tAuth\tlogin failed"])]) ∧
    (load_logs "/var/logs"
      (some [("app.log",
        FsEntry.file ["2024-01-01 10:00:00\tERROR\tAuth\tlogin failed"])])).1.logs ≠ [] := by
  constructor
  · decide
  · intro h
    rw [load_logs_records] at h
    have h2 := congrArg List.length h
    simp only [List.length_mergeSort, List.length_nil] at h2
    exact absurd h2 (by decide)

set_option maxRecDepth 40000 in
/-- C7 counterexample: a directory whose only entry is a dotfile — not a
directory, and holding one line that parses — loads to an empty snapshot,
because the `glob("*")` listing skips names beginning with a dot.  The
claim would require this entry to be treated as a log file. -/
theorem dotfile_entry_skipped :
    (load_logs "/var/logs"
      (some [(".hidden.log",
        FsEntry.file ["2024-01-01 10:00:00\tERROR\tAuth\tboot"])])).1.logs = [] ∧
    FsEntry.file ["2024-01-01 10:00:00\tERROR\tAuth\tboot"] ≠ FsEntry.dir ∧
    (_parse_log_line "2024-01-01 10:00:00\tERROR\tAuth\tboot").isOk = true := by
  refine ⟨?_, by decide, by decide⟩
  rw [load_logs_records]
  have h : discovered "/var/logs"
      (some [(".hidden.log",
        FsEntry.file ["2024-01-01 10:00:00\tERROR\tAuth\tboot"])]) = [] := by decide
  rw [h]
  exact List.mergeSort_nil

/-- C7 (amended): for every existing directory, the loader enumerates
exactly the direct entries whose names do not begin with a dot (the
`glob("*")` pattern skips hidden names), processes the files in
lexicographic name order, skips the entries that are directories, and
treats every other enumerated entry as a log file regardless of its name
or extension. -/
theorem load_enumerates_sorted_nondot :
    ∀ (directory : String) (entries : Directory),
    discovered directory (some entries) =
      (List.insertionSort nameLE
        (entries.filter (fun ent => !startsDot ent.1))).flatMap
        (fileRecords directory) ∧
    ((globSorted entries).map Prod.fst).Pairwise (fun a b => a ≤ b) ∧
    (∀ name, fileRecords directory (name, FsEntry.dir) = []) ∧
    (∀ name lines, fileRecords directory (name, FsEntry.file lines) =
      linesRecords (directory ++ "/" ++ name) name 1 lines) := by
  intro directory entries
  refine ⟨(rawState_eq directory entries).1, ?_, fun name => rfl,
    fun name lines => rfl⟩
  have h := List.sorted_insertionSort nameLE
    (entries.filter (fun ent => !startsDot ent.1))
  exact List.pairwise_map.mpr h

/-- C2: for every input line, the parser strips trailing newlines and
splits on the tab character with at most three splits; it fails with
`MalformedLine` exactly when fewer than four parts result; otherwise it
fails with `InvalidTimestamp` exactly when the whitespace-trimmed first
field does not parse in the fixed `%Y-%m-%d %H:%M:%S` format; otherwise it
returns the parsed timestamp with the second, third and fourth fields
trimmed of surrounding whitespace, as a pure function. -/
theorem parse_line_characterization : ∀ line : String,
    ((_parse_log_line line = .error .malformedLine) ↔
      (splitTabMax 3 (rstripNlL line.data)).length < 4) ∧
    (∀ ts lvl comp msg,
      splitTabMax 3 (rstripNlL line.data) = [ts, lvl, comp, msg] →
      (((_parse_log_line line = .error .invalidTimestamp) ↔
          strptime ⟨stripL ts⟩ = none) ∧
        (∀ t, strptime ⟨stripL ts⟩ = some t →
          _parse_log_line line =
            .ok (t, ⟨stripL lvl⟩, ⟨stripL comp⟩, ⟨stripL msg⟩)))) := by
  intro line
  have hlen : (splitTabMax 3 (rstripNlL line.data)).length ≤ 4 :=
    splitTabMax_length_le 3 (rstripNlL line.data)
  constructor
  · match hsplit : splitTabMax 3 (rstripNlL line.data) with
    | [] => simp [_parse_log_line, hsplit]
    | [a] => simp [_parse_log_line, hsplit]
    | [a, b] => simp [_parse_log_line, hsplit]
    | [a, b, c] => simp [_parse_log_line, hsplit]
    | [a, b, c, d] =>
      simp only [_parse_log_line, hsplit, List.length_cons, List.length_nil]
      constructor
      · intro h
        match hts : strptime ⟨stripL a⟩ with
        | none => rw [hts] at h; exact absurd h (by simp)
        | some t => rw [hts] at h; exact absurd h (by simp)
      · intro h; omega
    | a :: b :: c :: d :: e :: rest =>
      rw [hsplit] at hlen
      simp at hlen
  · intro ts lvl comp msg hsplit
    constructor
    · simp only [_parse_log_line, hsplit]
      match hts : strptime ⟨stripL ts⟩ with
      | none => simp
      | some t => simp
    · intro t ht
      simp only [_parse_log_line, hsplit, ht]

/-- Witness for C2 on the line from the specification's example. -/
theorem parse_line_characterization_witness :
    _parse_log_line "2024-01-01 10:00:00\tERROR\tAuth\tlogin failed" =
      .ok (⟨2024, 1, 1, 10, 0, 0⟩, "ERROR", "Auth", "login failed") :=
  ((parse_line_characterization
      "2024-01-01 10:00:00\tERROR\tAuth\tlogin failed").2
    "2024-01-01 10:00:00".data "ERROR".data "Auth".data "login failed".data
    (by decide)).2 ⟨2024, 1, 1, 10, 0, 0⟩ (by decide)

/-- C5: no ingestion failure is fatal or loses more than its own scope —
a missing directory yields the empty snapshot; a blank or
whitespace-only line contributes no record and no warning; a malformed
line contributes no record and exactly its own warning; each line of a
file and each file of the directory contributes independently of the
others (so no failure aborts the remaining lines, file, or directory);
an unreadable file contributes no records and exactly its own warning. -/
theorem ingestion_fault_isolation :
    (∀ directory, (load_logs directory none).1.logs = [] ∧
      (load_logs directory none).1.map = []) ∧
    (∀ fp name i line, strip line = "" →
      lineRecords fp name i line = [] ∧ lineWarns fp i line = []) ∧
    (∀ fp name i line err, _parse_log_line line = .error err →
      lineRecords fp name i line = [] ∧
      (strip line ≠ "" → lineWarns fp i line = [.malformed i fp err])) ∧
    (∀ fp name i l rest, linesRecords fp name i (l :: rest) =
      lineRecords fp name i l ++ linesRecords fp name (i + 1) rest) ∧
    (∀ directory name, fileRecords directory (name, FsEntry.unreadable) = [] ∧
      fileWarns directory (name, FsEntry.unreadable) =
        [.readFailed (directory ++ "/" ++ name)]) ∧
    (∀ directory entries,
      (rawState directory entries).1.logs =
        (globSorted entries).flatMap (fileRecords directory) ∧
      (rawState directory entries).2 =
        (globSorted entries).flatMap (fileWarns directory)) := by
  refine ⟨fun directory => ⟨rfl, rfl⟩, ?_, ?_, fun fp name i l rest => rfl,
    fun directory name => ⟨rfl, rfl⟩, fun directory entries => rawState_eq directory entries⟩
  · intro fp name i line hb
    exact ⟨by simp [lineRecords, hb], by simp [lineWarns, hb]⟩
  · intro fp name i line err herr
    refine ⟨?_, ?_⟩
    · by_cases hb : strip line = ""
      · simp [lineRecords, hb]
      · simp [lineRecords, hb, herr]
    · intro hb
      simp [lineWarns, hb, herr]

/-- Witness for C5: a blank line, a malformed line, an unreadable file
and a missing directory each at a concrete input. -/
theorem ingestion_fault_isolation_witness :
    (lineRecords "/d/f" "f" 1 "  \t " = [] ∧ lineWarns "/d/f" 1 "  \t " = []) ∧
    (lineRecords "/d/f" "f" 2 "only two\tfields" = [] ∧
      ("only two\tfields" ≠ "" →
        lineWarns "/d/f" 2 "only two\tfields" =
          [.malformed 2 "/d/f" ParseError.malformedLine])) ∧
    (load_logs "/absent" none).1.logs = [] :=
  ⟨ingestion_fault_isolation.2.1 "/d/f" "f" 1 "  \t " (by decide),
   ⟨(ingestion_fault_isolation.2.2.1 "/d/f" "f" 2 "only two\tfields"
        ParseError.malformedLine rfl).1,
    fun _ => (ingestion_fault_isolation.2.2.1 "/d/f" "f" 2 "only two\tfields"
        ParseError.malformedLine rfl).2 (by decide)⟩,
   (ingestion_fault_isolation.1 "/absent").1⟩

/-- C1: for every snapshot and valid `GET /logs` parameters (limit in
[1, 1000], offset ≥ 0, every truthy time value parseable), the response
equals the reference definition: records of the snapshot in stored order
filtered by the logical AND of all supplied filters (level and component
case-insensitively, absent filters unconstrained), `total` the filtered
length, `items` the slice from `offset` to `offset + limit`, and an
offset at or beyond the filtered total gives an empty items list, not an
error. -/
theorem get_logs_reference (logs : List LogEntry)
    (level component st et : Option String) (limit offset : Nat)
    (_hlim : 1 ≤ limit ∧ limit ≤ 1000)
    (hst : truthy st = true → (strptime (st.getD "")).isSome = true)
    (het : truthy et = true → (strptime (et.getD "")).isSome = true) :
    get_logs logs level component st et limit offset =
      .ok (spec_get_logs logs level component (parsedOpt st) (parsedOpt et)
        limit offset) ∧
    (spec_get_logs logs level component (parsedOpt st) (parsedOpt et)
        limit offset).total =
      (specFiltered logs level component (parsedOpt st) (parsedOpt et)).length ∧
    (spec_get_logs logs level component (parsedOpt st) (parsedOpt et)
        limit offset).items =
      ((specFiltered logs level component (parsedOpt st)
        (parsedOpt et)).drop offset).take limit ∧
    ((specFiltered logs level component (parsedOpt st)
        (parsedOpt et)).length ≤ offset →
      (spec_get_logs logs level component (parsedOpt st) (parsedOpt et)
        limit offset).items = []) := by
  refine ⟨?_, rfl, rfl, ?_⟩
  · unfold get_logs
    rw [apply_filters_eq]
    have h1 : ¬ (truthy st = true ∧ strptime (st.getD "") = none) := by
      rintro ⟨h, h2⟩
      have h3 := hst h
      rw [h2] at h3
      simp at h3
    have h2 : ¬ (truthy et = true ∧ strptime (et.getD "") = none) := by
      rintro ⟨h, h3⟩
      have h4 := het h
      rw [h3] at h4
      simp at h4
    rw [if_neg h1, if_neg h2]
    rfl
  · intro h
    show ((specFiltered logs level component (parsedOpt st)
      (parsedOpt et)).drop offset).take limit = []
    rw [List.drop_eq_nil_of_le h, List.take_nil]

/-- Witness for C1 on a two-record snapshot with a case-insensitive level
filter and a parseable inclusive start time. -/
theorem get_logs_reference_witness :
    get_logs [sampleInfo, sampleError] (some "error") none
      (some "2024-01-01 09:30:00") none 100 0 =
      .ok (spec_get_logs [sampleInfo, sampleError] (some "error") none
        (parsedOpt (some "2024-01-01 09:30:00")) (parsedOpt none) 100 0) :=
  (get_logs_reference [sampleInfo, sampleError] (some "error") none
    (some "2024-01-01 09:30:00") none 100 0 (by decide)
    (fun _ => by decide) (fun h => absurd h (by decide))).1

/-- C6 counterexample: with the filter parameter supplied as the empty
string — a value `strptime` does not parse — the query succeeds with the
filter silently ignored instead of returning the client input error the
claim requires for every supplied unparseable value. -/
theorem empty_time_filter_silently_ignored :
    strptime "" = none ∧
    get_logs [sampleInfo] none none (some "") none 100 0 =
      .ok ⟨1, 100, 0, [sampleInfo]⟩ :=
  ⟨rfl, rfl⟩

/-- C6 (amended): a supplied non-empty start_time/end_time value that
does not parse in the fixed format is reported as a client input error —
HTTP 400 with an error message — and the error is raised exactly when
some supplied non-empty time value is malformed; a supplied empty string
imposes no constraint and raises no error (the source guards with Python
truthiness); each value that does parse is applied as an inclusive bound
on record timestamps. -/
theorem time_filter_validation (logs : List LogEntry)
    (level component st et : Option String) (limit offset : Nat) :
    ((∃ err, get_logs logs level component st et limit offset = .error err) ↔
      ((truthy st = true ∧ strptime (st.getD "") = none) ∨
       (truthy et = true ∧ strptime (et.getD "") = none))) ∧
    (∀ err, get_logs logs level component st et limit offset = .error err →
      err.status = 400) ∧
    (∀ T, parsedOpt st = some T →
      ∀ e ∈ specFiltered logs level component (parsedOpt st) (parsedOpt et),
        Timestamp.le T e.timestamp = true) ∧
    (∀ E, parsedOpt et = some E →
      ∀ e ∈ specFiltered logs level component (parsedOpt st) (parsedOpt et),
        Timestamp.le e.timestamp E = true) ∧
    (∀ e, e ∈ specFiltered logs level component (parsedOpt st) (parsedOpt et) ↔
      e ∈ logs ∧
        specMatches level component (parsedOpt st) (parsedOpt et) e = true) ∧
    ((truthy st = true → (strptime (st.getD "")).isSome = true) →
     (truthy et = true → (strptime (et.getD "")).isSome = true) →
      get_logs logs level component st et limit offset =
        .ok (spec_get_logs logs level component (parsedOpt st) (parsedOpt et)
          limit offset)) := by
  have key : get_logs logs level component st et limit offset =
      (if truthy st = true ∧ strptime (st.getD "") = none then
        .error ⟨400, startDetail⟩
      else if truthy et = true ∧ strptime (et.getD "") = none then
        .error ⟨400, endDetail⟩
      else
        .ok (spec_get_logs logs level component (parsedOpt st) (parsedOpt et)
          limit offset)) := by
    unfold get_logs
    rw [apply_filters_eq]
    by_cases h1 : truthy st = true ∧ strptime (st.getD "") = none
    · rw [if_pos h1, if_pos h1]
    · rw [if_neg h1, if_neg h1]
      by_cases h2 : truthy et = true ∧ strptime (et.getD "") = none
      · rw [if_pos h2, if_pos h2]
      · rw [if_neg h2, if_neg h2]
        rfl
  refine ⟨?_, ?_, ?_, ?_, ?_, ?_⟩
  · rw [key]
    by_cases h1 : truthy st = true ∧ strptime (st.getD "") = none
    · simp [h1]
    · by_cases h2 : truthy et = true ∧ strptime (et.getD "") = none
      · simp [h1, h2]
      · simp [h1, h2]
  · intro err herr
    rw [key] at herr
    by_cases h1 : truthy st = true ∧ strptime (st.getD "") = none
    · rw [if_pos h1] at herr
      cases herr
      rfl
    · rw [if_neg h1] at herr
      by_cases h2 : truthy et = true ∧ strptime (et.getD "") = none
      · rw [if_pos h2] at herr
        cases herr
        rfl
      · rw [if_neg h2] at herr
        cases herr
  · intro T hT e he
    rw [hT] at he
    have hm := (List.mem_filter.mp he).2
    simp only [specMatches, Bool.and_eq_true] at hm
    exact hm.1.2
  · intro E hE e he
    rw [hE] at he
    have hm := (List.mem_filter.mp he).2
    simp only [specMatches, Bool.and_eq_true] at hm
    exact hm.2
  · intro e
    exact List.mem_filter
  · intro hst het
    rw [key]
    have h1 : ¬ (truthy st = true ∧ strptime (st.getD "") = none) := by
      rintro ⟨h, h2⟩
      have h3 := hst h
      rw [h2] at h3
      simp at h3
    have h2 : ¬ (truthy et = true ∧ strptime (et.getD "") = none) := by
      rintro ⟨h, h3⟩
      have h4 := het h
      rw [h3] at h4
      simp at h4
    rw [if_neg h1, if_neg h2]

/-- Witness for C6 (amended): the parsed start bound really is inclusive
on a concrete snapshot. -/
theorem time_filter_validation_witness :
    Timestamp.le ⟨2024, 1, 1, 9, 30, 0⟩ sampleError.timestamp = true :=
  (time_filter_validation [sampleError] none none
      (some "2024-01-01 09:30:00") none 100 0).2.2.1
    ⟨2024, 1, 1, 9, 30, 0⟩ (by decide) sampleError (by decide)

/-- C10: supplying the empty string as level, component, start_time or
end_time behaves exactly as omitting the parameter — no constraint, no
format validation, no client error — and consequently a record whose
stored level or component is the empty string can never be selected by a
non-empty level or component filter. -/
theorem empty_string_params_as_omitted :
    (∀ (logs : List LogEntry) (component st et : Option String) limit offset,
      get_logs logs (some "") component st et limit offset =
        get_logs logs none component st et limit offset) ∧
    (∀ (logs : List LogEntry) (level st et : Option String) limit offset,
      get_logs logs level (some "") st et limit offset =
        get_logs logs level none st et limit offset) ∧
    (∀ (logs : List LogEntry) (level component et : Option String) limit offset,
      get_logs logs level component (some "") et limit offset =
        get_logs logs level component none et limit offset) ∧
    (∀ (logs : List LogEntry) (level component st : Option String) limit offset,
      get_logs logs level component st (some "") limit offset =
        get_logs logs level component st none limit offset) ∧
    (∀ (logs : List LogEntry) (v : String) (component st et : Option String)
      limit offset r, v ≠ "" →
      get_logs logs (some v) component st et limit offset = .ok r →
      ∀ e ∈ r.items, e.level ≠ "") ∧
    (∀ (logs : List LogEntry) (level : Option String) (v : String)
      (st et : Option String) limit offset r, v ≠ "" →
      get_logs logs level (some v) st et limit offset = .ok r →
      ∀ e ∈ r.items, e.component ≠ "") := by
  refine ⟨fun _ _ _ _ _ _ => rfl, fun _ _ _ _ _ _ => rfl,
    fun _ _ _ _ _ _ => rfl, fun _ _ _ _ _ _ => rfl, ?_, ?_⟩
  · intro logs v component st et limit offset r hv hok e he hlv
    unfold get_logs at hok
    rw [apply_filters_eq] at hok
    by_cases h1 : truthy st = true ∧ strptime (st.getD "") = none
    · rw [if_pos h1] at hok; cases hok
    · rw [if_neg h1] at hok
      by_cases h2 : truthy et = true ∧ strptime (et.getD "") = none
      · rw [if_pos h2] at hok; cases hok
      · rw [if_neg h2] at hok
        cases hok
        have hef : e ∈ specFiltered logs (some v) component (parsedOpt st)
            (parsedOpt et) :=
          List.mem_of_mem_drop (List.mem_of_mem_take he)
        have hm := (List.mem_filter.mp hef).2
        have htr : truthy (some v) = true := by simp [truthy, hv]
        simp only [specMatches, htr, Bool.not_true, Bool.false_or,
          Bool.and_eq_true, decide_eq_true_eq] at hm
        have hlow : lower e.level = lower v := hm.1.1.1
        rw [hlv] at hlow
        have : lower v = "" := hlow.symm
        exact hv ((lower_empty_iff v).mp this)
  · intro logs level v st et limit offset r hv hok e he hlv
    unfold get_logs at hok
    rw [apply_filters_eq] at hok
    by_cases h1 : truthy st = true ∧ strptime (st.getD "") = none
    · rw [if_pos h1] at hok; cases hok
    · rw [if_neg h1] at hok
      by_cases h2 : truthy et = true ∧ strptime (et.getD "") = none
      · rw [if_pos h2] at hok; cases hok
      · rw [if_neg h2] at hok
        cases hok
        have hef : e ∈ specFiltered logs level (some v) (parsedOpt st)
            (parsedOpt et) :=
          List.mem_of_mem_drop (List.mem_of_mem_take he)
        have hm := (List.mem_filter.mp hef).2
        have htr : truthy (some v) = true := by simp [truthy, hv]
        simp only [specMatches, htr, Bool.not_true, Bool.false_or,
          Bool.and_eq_true, decide_eq_true_eq] at hm
        have hlow : lower e.component = lower v := hm.1.1.2
        rw [hlv] at hlow
        have : lower v = "" := hlow.symm
        exact hv ((lower_empty_iff v).mp this)

/-- Witness for C10: the never-selected consequence at a concrete record
and non-empty filter. -/
theorem empty_string_params_witness : sampleError.level ≠ "" :=
  empty_string_params_as_omitted.2.2.2.2.1 [sampleError] "error" none none none
    100 0 ⟨1, 100, 0, [sampleError]⟩ (by decide) rfl sampleError
    (by decide)

end LogApi
